import Mathlib

namespace PWA

/-!
Shallow embedding of the PWA service-worker core (HowProgrammingWorks/PWA):
the cache store, the request router of `sw.js` / `application.js`, the
offline-action queue, and the websocket connection manager of `worker.js`.
Each definition mirrors one function of the JavaScript source; asynchronous
platform effects (network fetch, timers, socket events) are passed in as
explicit inputs or modelled as labelled transition steps.
-/

/-! ## Strings: substring test, as used by `key.url.includes(...)` -/

/-- listHasPre pat l is true when pat is an initial segment of l. -/
def listHasPre : List Char → List Char → Bool
  | [], _ => true
  | _ :: _, [] => false
  | p :: ps, c :: cs => p == c && listHasPre ps cs

/-- listIncludes pat l is true when pat occurs contiguously inside l. -/
def listIncludes (pat : List Char) : List Char → Bool
  | [] => pat.isEmpty
  | c :: rest => listHasPre pat (c :: rest) || listIncludes pat rest

/-- strIncludes s pat models JavaScript `s.includes(pat)`. -/
def strIncludes (s pat : String) : Bool :=
  listIncludes pat.data s.data

/-- strHasPre s pre models JavaScript `s.startsWith(pre)` (used for the
`/api/` path test of the fetch listener). -/
def strHasPre (s pre : String) : Bool :=
  listHasPre pre.data s.data

/-! ## Cache Store model

A `Cache` is a list of (request key, response) records in insertion order,
matching the Cache API: `put` deletes the matching entry then appends, and
`keys()` enumerates in insertion order. A `CacheStorage` is the list of named
caches; `caches.open` creates a missing cache, `caches.match` scans the caches
in order. -/

/-- OfflineMsg is the message/action object persisted in the offline queue;
`id` is `none` when the JavaScript value lacks the field. -/
structure OfflineMsg where
  id : Option String
  mtype : String
  payload : String
deriving DecidableEq

/-- Body of a response: plain text, `JSON.stringify` of a queued message, or
`JSON.stringify` of an `\x7berror: msg\x7d` object (serialization is modelled
structurally). -/
inductive Body where
  | text (s : String)
  | obj (a : OfflineMsg)
  | errObj (error : String)
deriving DecidableEq

/-- Response record: status, statusText, `type` ("basic", "cors", "opaque",
"error"), content type header and body. -/
structure Response where
  status : Nat
  statusText : String
  rtype : String
  contentType : String
  body : Body
deriving DecidableEq

/-- Response.okFlag models `response.ok`: status in the range 200..299. -/
def Response.okFlag (r : Response) : Bool :=
  200 ≤ r.status && r.status ≤ 299

abbrev Cache := List (String × Response)

abbrev CacheStorage := List (String × Cache)

/-- cacheDelete models `cache.delete(key)`. -/
def cacheDelete (c : Cache) (key : String) : Cache :=
  c.filter (fun kv => kv.1 != key)

/-- cachePut models `cache.put(key, r)`: the batch operation deletes any
matching entry and appends the new record. -/
def cachePut (c : Cache) (key : String) (r : Response) : Cache :=
  cacheDelete c key ++ [(key, r)]

/-- cacheLookup models `cache.match(key)`. -/
def cacheLookup (c : Cache) (key : String) : Option Response :=
  (c.find? (fun kv => kv.1 == key)).map Prod.snd

/-- cachesOpen models `caches.open(name)` followed by reading the cache
contents: a missing cache reads as empty. -/
def cachesOpen : CacheStorage → String → Cache
  | [], _ => []
  | nc :: rest, name => if nc.1 == name then nc.2 else cachesOpen rest name

/-- storageUpdate applies an operation to the named cache, creating the cache
(as `caches.open` does) when it is missing. -/
def storageUpdate : CacheStorage → String → (Cache → Cache) → CacheStorage
  | [], name, f => [(name, f [])]
  | nc :: rest, name, f =>
    if nc.1 == name then (nc.1, f nc.2) :: rest
    else nc :: storageUpdate rest name f

/-- storagePut models `caches.open(name)` then `cache.put(key, r)`. -/
def storagePut (cs : CacheStorage) (name key : String) (r : Response) : CacheStorage :=
  storageUpdate cs name (fun c => cachePut c key r)

/-- storageDeleteKey models `caches.open(name)` then `cache.delete(key)`. -/
def storageDeleteKey (cs : CacheStorage) (name key : String) : CacheStorage :=
  storageUpdate cs name (fun c => cacheDelete c key)

/-- cachesMatch models `caches.match(key)`: scan the caches in order. -/
def cachesMatch : CacheStorage → String → Option Response
  | [], _ => none
  | nc :: rest, key =>
    match cacheLookup nc.2 key with
    | some r => some r
    | none => cachesMatch rest key

/-! ## Request Router and serving strategies (`sw.js` / `application.js`)

The fetch listener ignores non-GET and websocket-scheme requests, dispatches
paths under `/api/` to `handleApiRequest` and everything else to
`handleFetch`. The outcome of `fetch(request)` is an explicit input:
`some r` when the fetch promise resolves with response `r`, `none` when it
rejects (network failure). -/

def STATIC_CACHE : String := "static-v1"

def DYNAMIC_CACHE : String := "dynamic-v1"

/-- Request: method, URL scheme, path and `destination`. -/
structure Request where
  method : String
  protocol : String
  path : String
  destination : String
deriving DecidableEq

inductive RouteDecision where
  | ignored
  | api
  | asset
deriving DecidableEq

/-- routeRequest embeds the dispatch logic of the `fetch` event listener. -/
def routeRequest (req : Request) : RouteDecision :=
  if req.method != "GET" then RouteDecision.ignored
  else if req.protocol == "ws:" || req.protocol == "wss:" then RouteDecision.ignored
  else if strHasPre req.path "/api/" then RouteDecision.api
  else RouteDecision.asset

/-- offline503Response is the synthesized response built by
`handleApiRequest` when both the network and the cache fail: a 503 whose body
is `JSON.stringify` of an object carrying the no-cached-data error. -/
def offline503Response : Response :=
  { status := 503
    statusText := "Service Unavailable"
    rtype := "basic"
    contentType := "application/json"
    body := Body.errObj "Offline - No cached data available" }

/-- apiFallback is the shared tail of `handleApiRequest`: try
`caches.match(request)`, else synthesize the 503 response. -/
def apiFallback (cs : CacheStorage) (req : Request) : Response × CacheStorage :=
  match cachesMatch cs req.path with
  | some cached => (cached, cs)
  | none => (offline503Response, cs)

/-- handleApiRequest embeds `handleApiRequest` of `sw.js` lines 14-37
(network-first): an `ok` network response is cloned into the dynamic cache
and returned; otherwise fall back to the cache, then to the 503 response. -/
def handleApiRequest (cs : CacheStorage) (req : Request) (fetchResult : Option Response) :
    Response × CacheStorage :=
  match fetchResult with
  | some response =>
    if response.okFlag then (response, storagePut cs DYNAMIC_CACHE req.path response)
    else apiFallback cs req
  | none => apiFallback cs req

/-- handleFetch embeds the cache-first asset strategy of `sw.js` lines
135-160 (`handleFetch` in `application.js`): cache hit returns immediately;
on a miss the network response is cached only when it is a basic 200;
on a network failure a document request gets `caches.match("/404.html")`
and any other request gets no response (`null`). -/
def handleFetch (cs : CacheStorage) (req : Request) (fetchResult : Option Response) :
    Option Response × CacheStorage :=
  match cachesMatch cs req.path with
  | some response => (some response, cs)
  | none =>
    match fetchResult with
    | some fr =>
      if fr.status != 200 || fr.rtype != "basic" then (some fr, cs)
      else (some fr, storagePut cs DYNAMIC_CACHE req.path fr)
    | none =>
      if req.destination == "document" then (cachesMatch cs "/404.html", cs)
      else (none, cs)

/-- handleFetchEvent embeds the whole `fetch` event listener: route, then
dispatch. An ignored request produces no `respondWith` call (`none`, storage
untouched). -/
def handleFetchEvent (cs : CacheStorage) (req : Request) (fetchResult : Option Response) :
    Option Response × CacheStorage :=
  match routeRequest req with
  | RouteDecision.ignored => (none, cs)
  | RouteDecision.api =>
    let rc := handleApiRequest cs req fetchResult
    (some rc.1, rc.2)
  | RouteDecision.asset => handleFetch cs req fetchResult

/-! ## Offline Action Queue (`application.js` lines 319-375, `sw.js` 39-91)

Queued actions are persisted in the dynamic cache under keys
`"/offline-actions/" ++ id`. `storeOfflineAction` follows the
`application.js` variant, which guards against a missing/falsy `id`. -/

def offActionSeg : String := "/offline-actions/"

/-- offKey derives the reserved queue key from an action id. -/
def offKey (id : String) : String := offActionSeg ++ id

/-- msgIdTruthy models the JavaScript truthiness of `message.id`:
false for a missing field and for the empty string. -/
def msgIdTruthy : Option String → Bool
  | none => false
  | some s => s != ""

/-- jsonOf models `new Response(JSON.stringify(message), \x7bheaders: ...\x7d)`:
a fresh response (default status 200) whose body serializes the message. -/
def jsonOf (m : OfflineMsg) : Response :=
  { status := 200
    statusText := ""
    rtype := "basic"
    contentType := "application/json"
    body := Body.obj m }

/-- respJson models `response.json()` restricted to bodies that are
serialized queue messages. -/
def respJson (r : Response) : Option OfflineMsg :=
  match r.body with
  | Body.obj a => some a
  | _ => none

/-- storeOfflineAction embeds `storeOfflineAction` of `application.js` lines
319-329: reject (no-op) a null message or one with a falsy `id`, otherwise
put the serialized message into the dynamic cache under the reserved key. -/
def storeOfflineAction (cs : CacheStorage) (message : Option OfflineMsg) : CacheStorage :=
  match message with
  | none => cs
  | some m =>
    if msgIdTruthy m.id = false then cs
    else storagePut cs DYNAMIC_CACHE (offKey (m.id.getD "")) (jsonOf m)

/-- getOfflineActions embeds `getOfflineActions`: enumerate the dynamic cache
keys, keep those containing the reserved segment, and parse each matching
record back into a message. -/
def getOfflineActions (cs : CacheStorage) : List OfflineMsg :=
  let cache := cachesOpen cs DYNAMIC_CACHE
  let actionKeys := (cache.map Prod.fst).filter (fun k => strIncludes k offActionSeg)
  actionKeys.filterMap (fun k => (cacheLookup cache k).bind respJson)

/-- removeOfflineAction embeds `removeOfflineAction`: delete the action's
reserved key from the dynamic cache. -/
def removeOfflineAction (cs : CacheStorage) (id : String) : CacheStorage :=
  storageDeleteKey cs DYNAMIC_CACHE (offKey id)

/-- drainLoop embeds the `for` loop of `doBackgroundSync` over a snapshot of
the queue: invoke the consumption callback on every action (`procFails a`
models the callback throwing on `a`; the failure is caught and logged), and
remove the action only when the callback succeeded. It returns the final
storage and the list of actions the callback was invoked on. -/
def drainLoop (procFails : OfflineMsg → Bool) :
    List OfflineMsg → CacheStorage → CacheStorage × List OfflineMsg
  | [], cs => (cs, [])
  | a :: rest, cs =>
    let cs' := if procFails a then cs else removeOfflineAction cs (a.id.getD "undefined")
    let result := drainLoop procFails rest cs'
    (result.1, a :: result.2)

/-- doBackgroundSync embeds `doBackgroundSync` of `sw.js` lines 77-91:
enumerate the queue once, then drain it with per-action isolation. -/
def doBackgroundSync (procFails : OfflineMsg → Bool) (cs : CacheStorage) :
    CacheStorage × List OfflineMsg :=
  drainLoop procFails (getOfflineActions cs) cs

/-- enqueueAll stores a list of actions one by one (the queue built by
repeated `STORE_OFFLINE_ACTION` messages). -/
def enqueueAll (cs : CacheStorage) (msgs : List OfflineMsg) : CacheStorage :=
  msgs.foldl (fun c m => storeOfflineAction c (some m)) cs

/-- emptyStorage: no caches exist yet. -/
def emptyStorage : CacheStorage := []

/-! ## Lifecycle Controller

`worker.js` `updateCache` (lines 38-48) populates the static cache one asset
at a time inside a try/catch, so one failing `cache.add` does not abort the
rest. `application.js` `activateServiceWorker` (lines 394-407) deletes every
cache whose name is neither the static nor the dynamic partition name.
`sw.js`'s `activate` listener (line 114) instead calls `.map` directly on the
promise returned by `caches.keys()`; the embedding keeps the dynamic-typing
error visible through a tiny JavaScript value model. -/

/-- updateCache embeds `updateCache` of `worker.js`: for each asset, try
`cache.add(asset)` (fetch + put); a failing add (`addFails asset`) is caught
and logged and the loop continues. `net` gives the fetched response. -/
def updateCache (addFails : String → Bool) (net : String → Response)
    (c : Cache) (assets : List String) : Cache :=
  assets.foldl (fun acc asset => if addFails asset then acc else cachePut acc asset (net asset)) c

/-- deleteOpFor is the callback body of the activation cleanup: old cache
names map to a deletion operation, current ones to `null`. -/
def deleteOpFor (key : String) : Option String :=
  if key != STATIC_CACHE && key != DYNAMIC_CACHE then some key else none

/-- storageDeleteCache models `caches.delete(name)`. -/
def storageDeleteCache (cs : CacheStorage) (name : String) : CacheStorage :=
  cs.filter (fun nc => nc.1 != name)

/-- applyDeleteOps awaits the deletion operations produced by the cleanup
callback (`null` entries do nothing). -/
def applyDeleteOps (cs : CacheStorage) (ops : List (Option String)) : CacheStorage :=
  ops.foldl
    (fun acc op =>
      match op with
      | some name => storageDeleteCache acc name
      | none => acc)
    cs

/-- activateServiceWorker embeds `activateServiceWorker` of `application.js`
lines 394-407: enumerate the cache names, build a deletion op for every name
that is not the current static/dynamic partition, and await them all. -/
def activateServiceWorker (cs : CacheStorage) : CacheStorage :=
  applyDeleteOps cs ((cs.map Prod.fst).map deleteOpFor)

/-- JsValue distinguishes a promise from the array it resolves to, mirroring
the dynamic typing of the `activate` listener in `sw.js`. -/
inductive JsValue where
  | jsPromise (inner : JsValue)
  | strArray (elems : List String)
deriving DecidableEq

/-- cachesKeysValue is the value of the expression `caches.keys()`: a promise
of the array of cache names (not the array itself). -/
def cachesKeysValue (cacheKeys : List String) : JsValue :=
  JsValue.jsPromise (JsValue.strArray cacheKeys)

/-- jsMapMethod models evaluating `v.map(f)`: only an array value has a
`map` method; on a promise the call throws a TypeError. -/
def jsMapMethod (v : JsValue) (f : String → Option String) :
    Except String (List (Option String)) :=
  match v with
  | JsValue.strArray elems => Except.ok (elems.map f)
  | JsValue.jsPromise _ => Except.error "TypeError: caches.keys(...).map is not a function"

/-- swActivateOps embeds `sw.js` line 114,
`const ops = await caches.keys().map((key) => ...)`: the member access binds
before `await`, so `.map` is invoked on the unresolved promise. -/
def swActivateOps (cacheKeys : List String) : Except String (List (Option String)) :=
  jsMapMethod (cachesKeysValue cacheKeys) deleteOpFor

/-! ## Connection Manager (`worker.js` lines 16-25 and 153-189)

The worker state carries the module-level variables `websocket`, `connected`,
`connecting` and `reconnectTimer`, plus bookkeeping that makes the platform
visible: the phase of the referenced socket, the multiset of timers the
platform still holds pending, a fresh-id counter for sockets and timers, the
number of sockets created and not yet closed, and the log of packets handed
to `broadcast`. Timer ids start at 1 so that `if (reconnectTimer)` (a JS
truthiness test) coincides with the timer variable being set. -/

inductive SockPhase where
  | pending
  | opened
  | closedS
deriving DecidableEq

structure Socket where
  sid : Nat
  phase : SockPhase
deriving DecidableEq

/-- Packet is the envelope handed to `broadcast`; `statusPkt b` is
`\x7btype: 'status', data: \x7bconnected: b\x7d\x7d`. -/
inductive Packet where
  | statusPkt (connectedFlag : Bool)
  | messagePkt (data : String)
deriving DecidableEq

structure WState where
  websocket : Option Socket
  connected : Bool
  connecting : Bool
  reconnectTimer : Option Nat
  pendingTimers : List Nat
  timerCounter : Nat
  nextSocketId : Nat
  liveSockets : Nat
  emitted : List Packet
deriving DecidableEq

/-- initW is the module state right after the worker script's top-level
declarations run. -/
def initW : WState :=
  { websocket := none
    connected := false
    connecting := false
    reconnectTimer := none
    pendingTimers := []
    timerCounter := 1
    nextSocketId := 0
    liveSockets := 0
    emitted := [] }

/-- connectStep embeds `connect` of `worker.js` lines 153-189: a no-op
unless both `connected` and `connecting` are false; otherwise set
`connecting` and create a fresh socket into `websocket`. -/
def connectStep (s : WState) : WState :=
  if s.connected || s.connecting then s
  else
    { s with
      connecting := true
      websocket := some ⟨s.nextSocketId, SockPhase.pending⟩
      nextSocketId := s.nextSocketId + 1
      liveSockets := s.liveSockets + 1 }

/-- setPhase records the platform-side phase change of the referenced
socket. -/
def setPhase (s : WState) (p : SockPhase) : WState :=
  { s with websocket := s.websocket.map (fun sk => ⟨sk.sid, p⟩) }

/-- openStep embeds `websocket.onopen`: mark connected, clear `connecting`,
broadcast a connected status packet. -/
def openStep (s : WState) : WState :=
  let s1 := setPhase s SockPhase.opened
  { s1 with
    connected := true
    connecting := false
    emitted := s1.emitted ++ [Packet.statusPkt true] }

/-- closeStep embeds `websocket.onclose` of `worker.js` lines 174-183: only
when `connected` was set, clear it and broadcast a disconnected status
packet; always clear `connecting`, cancel a pending reconnect timer and
schedule a fresh one (3000ms delay). -/
def closeStep (s : WState) : WState :=
  let s1 := setPhase s SockPhase.closedS
  let s2 :=
    if s1.connected then
      { s1 with connected := false, emitted := s1.emitted ++ [Packet.statusPkt false] }
    else s1
  let cleared :=
    match s2.reconnectTimer with
    | some t => s2.pendingTimers.filter (fun x => x != t)
    | none => s2.pendingTimers
  { s2 with
    connecting := false
    pendingTimers := cleared ++ [s2.timerCounter]
    reconnectTimer := some s2.timerCounter
    timerCounter := s2.timerCounter + 1
    liveSockets := s2.liveSockets - 1 }

/-- timerFireStep: the platform fires pending timer `t`, whose callback is
`connect`. -/
def timerFireStep (s : WState) (t : Nat) : WState :=
  connectStep { s with pendingTimers := s.pendingTimers.filter (fun x => x != t) }

inductive WEvent where
  | evConnect
  | evOpen
  | evClose
  | evTimer (t : Nat)
deriving DecidableEq

/-- enabledEv: `connect` can be invoked at any time (top-level call, an
`online` control message); a socket fires `open` only while pending and
`close` once, while not yet closed; a timer fires only while the platform
holds it pending. -/
def enabledEv (s : WState) : WEvent → Bool
  | WEvent.evConnect => true
  | WEvent.evOpen =>
    match s.websocket with
    | some sk => sk.phase == SockPhase.pending
    | none => false
  | WEvent.evClose =>
    match s.websocket with
    | some sk => sk.phase != SockPhase.closedS
    | none => false
  | WEvent.evTimer t => s.pendingTimers.contains t

def stepEv (s : WState) : WEvent → WState
  | WEvent.evConnect => connectStep s
  | WEvent.evOpen => openStep s
  | WEvent.evClose => closeStep s
  | WEvent.evTimer t => timerFireStep s t

/-- ReachableW: states the worker can be in, starting from the module
initialization and following enabled events. -/
inductive ReachableW : WState → Prop where
  | init : ReachableW initW
  | step (s : WState) (e : WEvent) : ReachableW s → enabledEv s e = true →
      ReachableW (stepEv s e)

/-- send embeds `send` of `worker.js` lines 21-25, with the null dereference
made observable: `some false` is the guarded early return, `some true` is a
successful `websocket.send`, `none` means `websocket.send` was reached with
`websocket === null`. -/
def send (s : WState) (packet : Packet) : Option Bool :=
  if s.connected = false then some false
  else
    match s.websocket, packet with
    | some _, _ => some true
    | none, _ => none

/-- emittedBy lists the packets handed to `broadcast` during one event. -/
def emittedBy (s : WState) (e : WEvent) : List Packet :=
  (stepEv s e).emitted.drop s.emitted.length

/-! ## Connection Manager invariant -/

/-- socketLiveCount: how many live (created, not yet closed) sockets the
`websocket` variable accounts for. -/
def socketLiveCount (s : WState) : Nat :=
  match s.websocket with
  | some sk => if sk.phase = SockPhase.closedS then 0 else 1
  | none => 0

/-- InvW: the inductive invariant of the connection manager. -/
structure InvW (s : WState) : Prop where
  sockId : ∀ sk, s.websocket = some sk → sk.sid + 1 = s.nextSocketId
  livePhase : ∀ sk, s.websocket = some sk → sk.phase ≠ SockPhase.closedS →
      (s.connected || s.connecting) = true
  liveCount : s.liveSockets = socketLiveCount s
  connectedSock : s.connected = true → ∃ sk, s.websocket = some sk
  timerSub : ∀ t ∈ s.pendingTimers, s.reconnectTimer = some t
  timerLt : ∀ t, s.reconnectTimer = some t → t < s.timerCounter
  timerLen : s.pendingTimers.length ≤ 1

/-! ## Queue bookkeeping helpers -/

/-- keyOf: the reserved key `storeOfflineAction` writes an action under. -/
def keyOf (m : OfflineMsg) : String := offKey (m.id.getD "")

/-- delKeyOf: the key `doBackgroundSync` deletes (string interpolation of a
missing id yields "undefined"). -/
def delKeyOf (m : OfflineMsg) : String := offKey (m.id.getD "undefined")

/-- entryOf: the cache record `storeOfflineAction` creates. -/
def entryOf (m : OfflineMsg) : String × Response := (keyOf m, jsonOf m)

/-- enqueueCache: the effect of `enqueueAll` on the dynamic cache alone. -/
def enqueueCache (c : Cache) (msgs : List OfflineMsg) : Cache :=
  msgs.foldl
    (fun acc m => if msgIdTruthy m.id = false then acc else cachePut acc (keyOf m) (jsonOf m)) c

/-- drainCache: the effect of the drain loop on the dynamic cache alone. -/
def drainCache (procFails : OfflineMsg → Bool) (msgs : List OfflineMsg) (c : Cache) : Cache :=
  msgs.foldl (fun acc m => if procFails m then acc else cacheDelete acc (delKeyOf m)) c

/-! ## Sample values used by the witness theorems -/

def apiReq : Request := ⟨"GET", "https:", "/api/data", "empty"⟩

def assetReq : Request := ⟨"GET", "https:", "/styles.css", "style"⟩

def docReq : Request := ⟨"GET", "https:", "/page.html", "document"⟩

def sampleOkResp : Response := ⟨200, "OK", "basic", "application/json", Body.text "payload"⟩

def sampleCorsResp : Response := ⟨200, "OK", "cors", "text/css", Body.text "body"⟩

def fallbackPage : Response := ⟨200, "OK", "basic", "text/html", Body.text "offline page"⟩

def msgA : OfflineMsg := ⟨some "a1", "message", "hello"⟩

def msgB : OfflineMsg := ⟨some "b2", "message", "world"⟩

def msgNoId : OfflineMsg := ⟨none, "message", "dropped"⟩

/-! ## Theorems -/

theorem listHasPre_append (p r : List Char) : listHasPre p (p ++ r) = true := by
  induction p with
  | nil => rfl
  | cons c cs ih => simp [listHasPre, ih]

theorem listIncludes_of_hasPre {pat l : List Char} (h : listHasPre pat l = true) :
    listIncludes pat l = true := by
  cases l with
  | nil =>
    cases pat with
    | nil => rfl
    | cons p ps => simp [listHasPre] at h
  | cons c rest => simp [listIncludes, h]

theorem strIncludes_append_self (pre rest : String) :
    strIncludes (pre ++ rest) pre = true := by
  have hdata : (pre ++ rest).data = pre.data ++ rest.data := by
    simp [String.data_append]
  rw [strIncludes, hdata]
  exact listIncludes_of_hasPre (listHasPre_append _ _)

theorem string_append_left_cancel {s t u : String} (h : s ++ t = s ++ u) : t = u := by
  have hd := congrArg String.data h
  simp [String.data_append] at hd
  exact String.ext hd

theorem cachesOpen_update (cs : CacheStorage) (name : String) (f : Cache → Cache) :
    cachesOpen (storageUpdate cs name f) name = f (cachesOpen cs name) := by
  induction cs with
  | nil => simp [storageUpdate, cachesOpen]
  | cons nc rest ih =>
    by_cases h : nc.1 == name
    · simp [storageUpdate, cachesOpen, h]
    · simp only [storageUpdate, cachesOpen, h]
      simpa [cachesOpen, h] using ih

theorem cacheLookup_delete_self (c : Cache) (key : String) :
    cacheLookup (cacheDelete c key) key = none := by
  induction c with
  | nil => rfl
  | cons kv rest ih =>
    by_cases h : kv.1 == key
    · have hne : (kv.1 != key) = false := by simp_all
      simpa [cacheDelete, hne] using ih
    · have hne : (kv.1 != key) = true := by simp_all
      simp only [cacheDelete] at ih ⊢
      simp [List.filter_cons, hne, cacheLookup, List.find?, h]

theorem cacheLookup_append (c₁ c₂ : Cache) (key : String) :
    cacheLookup (c₁ ++ c₂) key =
      match cacheLookup c₁ key with
      | some r => some r
      | none => cacheLookup c₂ key := by
  simp only [cacheLookup, List.find?_append]
  cases h : List.find? (fun kv => kv.1 == key) c₁ <;> simp [Option.or, h]

theorem cacheLookup_put_self (c : Cache) (key : String) (r : Response) :
    cacheLookup (cachePut c key r) key = some r := by
  rw [cachePut, cacheLookup_append, cacheLookup_delete_self]
  simp [cacheLookup, List.find?]

theorem cacheLookup_put_ne (c : Cache) (key k : String) (r : Response) (h : k ≠ key) :
    cacheLookup (cachePut c key r) k = cacheLookup c k := by
  rw [cachePut, cacheLookup_append]
  have hlast : cacheLookup [(key, r)] k = none := by
    have hb : (key == k) = false := by
      simp only [beq_eq_false_iff_ne]
      exact Ne.symm h
    simp [cacheLookup, List.find?, hb]
  have hdel : cacheLookup (cacheDelete c key) k = cacheLookup c k := by
    induction c with
    | nil => rfl
    | cons kv rest ih =>
      by_cases hkv : kv.1 == key
      · have hne : (kv.1 != key) = false := by simp_all
        have hk : (kv.1 == k) = false := by
          simp only [beq_iff_eq] at hkv ⊢
          simp [hkv, Ne.symm h]
        simp only [cacheDelete, List.filter_cons, hne, cond_false] at ih ⊢
        simpa [cacheLookup, List.find?, hk] using ih
      · have hne : (kv.1 != key) = true := by simp_all
        simp only [cacheDelete, List.filter_cons, hne, cond_true] at ih ⊢
        by_cases hk : kv.1 == k
        · simp [cacheLookup, List.find?, hk]
        · simp only [cacheLookup, List.find?, hk, cond_false] at ih ⊢
          exact ih
  rw [hdel, hlast]
  cases cacheLookup c k <;> simp

theorem invW_init : InvW initW := by
  constructor <;> simp [initW, socketLiveCount]

theorem connectStep_of_guard {s : WState} (h : (s.connected || s.connecting) = true) :
    connectStep s = s := by
  simp [connectStep, h]

theorem invW_connectStep {s : WState} (h : InvW s) : InvW (connectStep s) := by
  by_cases hg : (s.connected || s.connecting) = true
  · rw [connectStep_of_guard hg]; exact h
  · have hc : s.connected = false := by
      cases hcv : s.connected <;> simp [hcv] at hg ⊢
    have hlive : s.liveSockets = 0 := by
      rw [h.liveCount]
      cases hws : s.websocket with
      | none => simp [socketLiveCount, hws]
      | some sk =>
        by_cases hph : sk.phase = SockPhase.closedS
        · simp [socketLiveCount, hws, hph]
        · exact absurd (h.livePhase sk hws hph) hg
    have hstep : connectStep s =
        { s with
          connecting := true
          websocket := some ⟨s.nextSocketId, SockPhase.pending⟩
          nextSocketId := s.nextSocketId + 1
          liveSockets := s.liveSockets + 1 } := by
      simp [connectStep, hg]
    rw [hstep]
    constructor
    · intro sk hsk
      simp only [Option.some_inj] at hsk
      simp [← hsk]
    · intro sk hsk hph
      simp
    · simp [socketLiveCount, hlive]
    · intro hcon
      exact ⟨⟨s.nextSocketId, SockPhase.pending⟩, rfl⟩
    · exact h.timerSub
    · exact h.timerLt
    · exact h.timerLen

theorem invW_openStep {s : WState} (h : InvW s) (hen : enabledEv s WEvent.evOpen = true) :
    InvW (openStep s) := by
  have hws : ∃ sk, s.websocket = some sk ∧ sk.phase = SockPhase.pending := by
    cases hw : s.websocket with
    | none => simp [enabledEv, hw] at hen
    | some sk =>
      refine ⟨sk, rfl, ?_⟩
      simpa [enabledEv, hw] using hen
  obtain ⟨sk, hw, hph⟩ := hws
  have hstep : openStep s =
      { s with
        websocket := some ⟨sk.sid, SockPhase.opened⟩
        connected := true
        connecting := false
        emitted := s.emitted ++ [Packet.statusPkt true] } := by
    simp [openStep, setPhase, hw]
  rw [hstep]
  constructor
  · intro sk' hsk'
    simp only [Option.some_inj] at hsk'
    have := h.sockId sk hw
    simp [← hsk', this]
  · intro sk' hsk' hph'
    simp
  · have := h.liveCount
    simp [socketLiveCount, hw, hph] at this
    simp [socketLiveCount, this]
  · intro hcon
    exact ⟨⟨sk.sid, SockPhase.opened⟩, rfl⟩
  · exact h.timerSub
  · exact h.timerLt
  · exact h.timerLen

theorem closeStep_connected (s : WState) : (closeStep s).connected = false := by
  by_cases hc : s.connected <;> simp [closeStep, setPhase, hc]

theorem closeStep_connecting (s : WState) : (closeStep s).connecting = false := by
  by_cases hc : s.connected <;> simp [closeStep, setPhase, hc]

theorem closeStep_websocket (s : WState) :
    (closeStep s).websocket = s.websocket.map (fun sk => ⟨sk.sid, SockPhase.closedS⟩) := by
  by_cases hc : s.connected <;> simp [closeStep, setPhase, hc]

theorem closeStep_reconnectTimer (s : WState) :
    (closeStep s).reconnectTimer = some s.timerCounter := by
  by_cases hc : s.connected <;> simp [closeStep, setPhase, hc]

theorem closeStep_timerCounter (s : WState) :
    (closeStep s).timerCounter = s.timerCounter + 1 := by
  by_cases hc : s.connected <;> simp [closeStep, setPhase, hc]

theorem closeStep_pendingTimers (s : WState) :
    (closeStep s).pendingTimers =
      (match s.reconnectTimer with
        | some t => s.pendingTimers.filter (fun x => x != t)
        | none => s.pendingTimers) ++ [s.timerCounter] := by
  by_cases hc : s.connected <;> simp [closeStep, setPhase, hc]

theorem closeStep_liveSockets (s : WState) :
    (closeStep s).liveSockets = s.liveSockets - 1 := by
  by_cases hc : s.connected <;> simp [closeStep, setPhase, hc]

theorem closeStep_nextSocketId (s : WState) :
    (closeStep s).nextSocketId = s.nextSocketId := by
  by_cases hc : s.connected <;> simp [closeStep, setPhase, hc]

theorem closeStep_emitted (s : WState) :
    (closeStep s).emitted =
      s.emitted ++ (if s.connected then [Packet.statusPkt false] else []) := by
  by_cases hc : s.connected <;> simp [closeStep, setPhase, hc]

theorem invW_pendingTimers_cleared {s : WState} (h : InvW s) :
    (match s.reconnectTimer with
      | some t => s.pendingTimers.filter (fun x => x != t)
      | none => s.pendingTimers) = [] := by
  cases hrt : s.reconnectTimer with
  | none =>
    have : s.pendingTimers = [] := by
      cases hp : s.pendingTimers with
      | nil => rfl
      | cons t rest =>
        have := h.timerSub t (by simp [hp])
        rw [hrt] at this
        exact absurd this (by simp)
    simpa using this
  | some t =>
    simp only []
    rw [List.filter_eq_nil_iff]
    intro x hx
    have := h.timerSub x hx
    rw [hrt] at this
    simp only [Option.some_inj] at this
    simp [this]

theorem closeStep_pendingTimers_inv {s : WState} (h : InvW s) :
    (closeStep s).pendingTimers = [s.timerCounter] := by
  rw [closeStep_pendingTimers, invW_pendingTimers_cleared h]
  simp

theorem invW_closeStep {s : WState} (h : InvW s) (hen : enabledEv s WEvent.evClose = true) :
    InvW (closeStep s) := by
  have hws : ∃ sk, s.websocket = some sk ∧ sk.phase ≠ SockPhase.closedS := by
    cases hw : s.websocket with
    | none => simp [enabledEv, hw] at hen
    | some sk =>
      refine ⟨sk, rfl, ?_⟩
      simpa [enabledEv, hw] using hen
  obtain ⟨sk, hw, hph⟩ := hws
  have hlive : s.liveSockets = 1 := by
    rw [h.liveCount]
    simp [socketLiveCount, hw, hph]
  constructor
  · intro sk' hsk'
    rw [closeStep_websocket, hw] at hsk'
    simp at hsk'
    rw [closeStep_nextSocketId]
    have := h.sockId sk hw
    simp [← hsk', this]
  · intro sk' hsk' hph'
    rw [closeStep_websocket, hw] at hsk'
    simp at hsk'
    exact absurd (congrArg Socket.phase hsk'.symm) (by simpa using hph')
  · rw [closeStep_liveSockets, hlive]
    simp [socketLiveCount, closeStep_websocket, hw]
  · intro hcon
    rw [closeStep_connected s] at hcon
    exact absurd hcon (by simp)
  · intro t ht
    rw [closeStep_pendingTimers_inv h] at ht
    simp only [List.mem_singleton] at ht
    rw [closeStep_reconnectTimer, ht]
  · intro t ht
    rw [closeStep_reconnectTimer] at ht
    simp only [Option.some_inj] at ht
    rw [closeStep_timerCounter, ← ht]
    omega
  · rw [closeStep_pendingTimers_inv h]
    simp

theorem invW_timerFireStep {s : WState} (h : InvW s) (t : Nat) :
    InvW (timerFireStep s t) := by
  have hmid : InvW { s with pendingTimers := s.pendingTimers.filter (fun x => x != t) } := by
    constructor
    · exact h.sockId
    · exact h.livePhase
    · exact h.liveCount
    · exact h.connectedSock
    · intro x hx
      exact h.timerSub x (List.mem_of_mem_filter hx)
    · exact h.timerLt
    · exact le_trans (List.length_filter_le _ _) h.timerLen
  exact invW_connectStep hmid

theorem invW_step {s : WState} {e : WEvent} (h : InvW s) (hen : enabledEv s e = true) :
    InvW (stepEv s e) := by
  cases e with
  | evConnect => exact invW_connectStep h
  | evOpen => exact invW_openStep h hen
  | evClose => exact invW_closeStep h hen
  | evTimer t => exact invW_timerFireStep h t

theorem reachableW_inv {s : WState} (h : ReachableW s) : InvW s := by
  induction h with
  | init => exact invW_init
  | step s' e _ hen ih => exact invW_step ih hen

theorem delKeyOf_eq_keyOf {m : OfflineMsg} (h : msgIdTruthy m.id = true) :
    delKeyOf m = keyOf m := by
  cases hid : m.id with
  | none => rw [hid] at h; simp [msgIdTruthy] at h
  | some i => simp [delKeyOf, keyOf, hid]

theorem offKey_inj {a b : String} (h : offKey a = offKey b) : a = b :=
  string_append_left_cancel h

theorem keyOf_nodup {msgs : List OfflineMsg}
    (htr : ∀ m ∈ msgs, msgIdTruthy m.id = true)
    (hnd : (msgs.map OfflineMsg.id).Nodup) :
    (msgs.map keyOf).Nodup := by
  induction msgs with
  | nil => simp
  | cons m rest ih =>
    simp only [List.map_cons, List.nodup_cons] at hnd ⊢
    refine ⟨?_, ih (fun x hx => htr x (List.mem_cons_of_mem m hx)) hnd.2⟩
    intro hmem
    rcases List.mem_map.mp hmem with ⟨m', hm', hkey⟩
    have hideq : m'.id = m.id := by
      have htr1 := htr m (List.mem_cons_self m rest)
      have htr2 := htr m' (List.mem_cons_of_mem m hm')
      cases h1 : m.id with
      | none => rw [h1] at htr1; simp [msgIdTruthy] at htr1
      | some i =>
        cases h2 : m'.id with
        | none => rw [h2] at htr2; simp [msgIdTruthy] at htr2
        | some j =>
          have := offKey_inj (by simpa [keyOf, h1, h2] using hkey)
          rw [this]
    exact hnd.1 (by simpa [hideq] using List.mem_map_of_mem OfflineMsg.id hm')

theorem cachesOpen_enqueueAll (msgs : List OfflineMsg) (cs : CacheStorage) :
    cachesOpen (enqueueAll cs msgs) DYNAMIC_CACHE
      = enqueueCache (cachesOpen cs DYNAMIC_CACHE) msgs := by
  induction msgs generalizing cs with
  | nil => rfl
  | cons m rest ih =>
    simp only [enqueueAll, List.foldl_cons, enqueueCache]
    by_cases hid : msgIdTruthy m.id = false
    · have hstore : storeOfflineAction cs (some m) = cs := by
        simp [storeOfflineAction, hid]
      simpa [hstore, hid, enqueueAll, enqueueCache] using ih cs
    · have hid' : msgIdTruthy m.id = true := by simpa using hid
      have hstore : storeOfflineAction cs (some m)
          = storagePut cs DYNAMIC_CACHE (keyOf m) (jsonOf m) := by
        simp [storeOfflineAction, hid', keyOf]
      have hopen : cachesOpen (storagePut cs DYNAMIC_CACHE (keyOf m) (jsonOf m)) DYNAMIC_CACHE
          = cachePut (cachesOpen cs DYNAMIC_CACHE) (keyOf m) (jsonOf m) := by
        rw [storagePut, cachesOpen_update]
      simpa [hstore, hid, enqueueAll, enqueueCache, hopen] using
        ih (storagePut cs DYNAMIC_CACHE (keyOf m) (jsonOf m))

theorem enqueueCache_entries (msgs : List OfflineMsg) (c : Cache)
    (htr : ∀ m ∈ msgs, msgIdTruthy m.id = true)
    (hnd : (msgs.map keyOf).Nodup)
    (hdis : ∀ m ∈ msgs, ∀ kv ∈ c, kv.1 ≠ keyOf m) :
    enqueueCache c msgs = c ++ msgs.map entryOf := by
  induction msgs generalizing c with
  | nil => simp [enqueueCache]
  | cons m rest ih =>
    simp only [List.map_cons, List.nodup_cons] at hnd
    have hid : msgIdTruthy m.id = true := htr m (List.mem_cons_self m rest)
    have hid' : (msgIdTruthy m.id = false) = False := by simp [hid]
    have hdel : cacheDelete c (keyOf m) = c := by
      rw [cacheDelete, List.filter_eq_self]
      intro kv hkv
      simpa using hdis m (List.mem_cons_self m rest) kv hkv
    have hput : cachePut c (keyOf m) (jsonOf m) = c ++ [entryOf m] := by
      rw [cachePut, hdel, entryOf]
    have hstep : enqueueCache c (m :: rest) = enqueueCache (c ++ [entryOf m]) rest := by
      simp only [enqueueCache, List.foldl_cons, hid', if_neg, hput]
      simp [hput]
    rw [hstep, ih (c ++ [entryOf m]) (fun x hx => htr x (List.mem_cons_of_mem m hx)) hnd.2 ?_]
    · simp
    · intro m' hm' kv hkv
      rcases List.mem_append.mp hkv with h | h
      · exact hdis m' (List.mem_cons_of_mem m hm') kv h
      · have hkv' : kv = entryOf m := by simpa using h
        rw [hkv', entryOf]
        intro hc
        have hc' : keyOf m = keyOf m' := hc
        exact hnd.1 (by rw [hc']; exact List.mem_map_of_mem keyOf hm')

theorem strIncludes_keyOf (m : OfflineMsg) : strIncludes (keyOf m) offActionSeg = true := by
  rw [keyOf, offKey]
  exact strIncludes_append_self offActionSeg (m.id.getD "")

theorem respJson_jsonOf (m : OfflineMsg) : respJson (jsonOf m) = some m := rfl

theorem cacheLookup_entries {msgs : List OfflineMsg} (hnd : (msgs.map keyOf).Nodup) :
    ∀ m ∈ msgs, cacheLookup (msgs.map entryOf) (keyOf m) = some (jsonOf m) := by
  induction msgs with
  | nil => intro m hm; exact absurd hm (List.not_mem_nil m)
  | cons m0 rest ih =>
    simp only [List.map_cons, List.nodup_cons] at hnd
    intro m hm
    rcases List.mem_cons.mp hm with heq | hmem
    · subst heq
      simp [entryOf, cacheLookup, List.find?]
    · have hne : (keyOf m0 == keyOf m) = false := by
        rw [beq_eq_false_iff_ne]
        intro hc
        exact hnd.1 (by rw [hc]; exact List.mem_map_of_mem keyOf hmem)
      have := ih hnd.2 m hmem
      simpa [entryOf, cacheLookup, List.find?, hne] using this

theorem filterMap_lookup_entries {msgs : List OfflineMsg} {c : Cache}
    (hlook : ∀ m ∈ msgs, cacheLookup c (keyOf m) = some (jsonOf m)) :
    (msgs.map keyOf).filterMap (fun k => (cacheLookup c k).bind respJson) = msgs := by
  induction msgs with
  | nil => rfl
  | cons m rest ih =>
    have h0 := hlook m (List.mem_cons_self m rest)
    have hrest := ih (fun x hx => hlook x (List.mem_cons_of_mem m hx))
    have hgoal : ((m :: rest).map keyOf).filterMap (fun k => (cacheLookup c k).bind respJson)
        = m :: (rest.map keyOf).filterMap (fun k => (cacheLookup c k).bind respJson) := by
      simp only [List.map_cons, List.filterMap_cons, h0]
      rfl
    rw [hgoal, hrest]

theorem getOfflineActions_entries {msgs : List OfflineMsg} {cs : CacheStorage}
    (hc : cachesOpen cs DYNAMIC_CACHE = msgs.map entryOf)
    (hnd : (msgs.map keyOf).Nodup) :
    getOfflineActions cs = msgs := by
  rw [getOfflineActions]
  simp only [hc]
  have hfst : (msgs.map entryOf).map Prod.fst = msgs.map keyOf := by
    simp [entryOf, Function.comp]
  have hfilter : (msgs.map keyOf).filter (fun k => strIncludes k offActionSeg)
      = msgs.map keyOf := by
    rw [List.filter_eq_self]
    intro k hk
    rcases List.mem_map.mp hk with ⟨m, _, hkey⟩
    rw [← hkey]
    exact strIncludes_keyOf m
  rw [hfst, hfilter]
  exact filterMap_lookup_entries (cacheLookup_entries hnd)

theorem drainLoop_snd (procFails : OfflineMsg → Bool) (msgs : List OfflineMsg)
    (cs : CacheStorage) : (drainLoop procFails msgs cs).2 = msgs := by
  induction msgs generalizing cs with
  | nil => rfl
  | cons m rest ih => simp [drainLoop, ih]

theorem cachesOpen_drainLoop (procFails : OfflineMsg → Bool) (msgs : List OfflineMsg)
    (cs : CacheStorage) :
    cachesOpen (drainLoop procFails msgs cs).1 DYNAMIC_CACHE
      = drainCache procFails msgs (cachesOpen cs DYNAMIC_CACHE) := by
  induction msgs generalizing cs with
  | nil => rfl
  | cons m rest ih =>
    by_cases hf : procFails m
    · simpa [drainLoop, drainCache, hf] using ih cs
    · have hrm : cachesOpen (removeOfflineAction cs (m.id.getD "undefined")) DYNAMIC_CACHE
          = cacheDelete (cachesOpen cs DYNAMIC_CACHE) (delKeyOf m) := by
        rw [removeOfflineAction, storageDeleteKey, cachesOpen_update, delKeyOf]
      simpa [drainLoop, drainCache, hf, hrm] using
        ih (removeOfflineAction cs (m.id.getD "undefined"))

theorem cacheDelete_append (c₁ c₂ : Cache) (key : String) :
    cacheDelete (c₁ ++ c₂) key = cacheDelete c₁ key ++ cacheDelete c₂ key := by
  simp [cacheDelete, List.filter_append]

theorem drainCache_cons (procFails : OfflineMsg → Bool) (m : OfflineMsg)
    (rest : List OfflineMsg) (c : Cache) :
    drainCache procFails (m :: rest) c
      = drainCache procFails rest (if procFails m then c else cacheDelete c (delKeyOf m)) := rfl

theorem drainCache_entries (procFails : OfflineMsg → Bool) :
    ∀ (msgs : List OfflineMsg) (extra : Cache),
      (∀ m ∈ msgs, msgIdTruthy m.id = true) →
      ((msgs.map keyOf).Nodup) →
      (∀ m ∈ msgs, ∀ kv ∈ extra, kv.1 ≠ keyOf m) →
      drainCache procFails msgs (extra ++ msgs.map entryOf)
        = extra ++ (msgs.filter procFails).map entryOf := by
  intro msgs
  induction msgs with
  | nil => intro extra _ _ _; simp [drainCache]
  | cons m rest ih =>
    intro extra htr hnd hdis
    simp only [List.map_cons, List.nodup_cons] at hnd
    have htr0 : msgIdTruthy m.id = true := htr m (List.mem_cons_self m rest)
    have htrR : ∀ x ∈ rest, msgIdTruthy x.id = true :=
      fun x hx => htr x (List.mem_cons_of_mem m hx)
    by_cases hf : procFails m
    · have hacc : extra ++ (m :: rest).map entryOf
          = (extra ++ [entryOf m]) ++ rest.map entryOf := by simp
      rw [drainCache_cons, if_pos hf, hacc, ih (extra ++ [entryOf m]) htrR hnd.2 ?_]
      · simp [List.filter_cons, hf]
      · intro m' hm' kv hkv
        rcases List.mem_append.mp hkv with h | h
        · exact hdis m' (List.mem_cons_of_mem m hm') kv h
        · have hkv' : kv = entryOf m := by simpa using h
          rw [hkv', entryOf]
          intro hcon
          have hcon' : keyOf m = keyOf m' := hcon
          exact hnd.1 (by rw [hcon']; exact List.mem_map_of_mem keyOf hm')
    · have hdelkey : delKeyOf m = keyOf m := delKeyOf_eq_keyOf htr0
      have hdelE : cacheDelete (extra ++ (m :: rest).map entryOf) (keyOf m)
          = extra ++ rest.map entryOf := by
        rw [List.map_cons, cacheDelete_append]
        have h1 : cacheDelete extra (keyOf m) = extra := by
          rw [cacheDelete, List.filter_eq_self]
          intro kv hkv
          simpa using hdis m (List.mem_cons_self m rest) kv hkv
        have h2 : cacheDelete (entryOf m :: rest.map entryOf) (keyOf m)
            = rest.map entryOf := by
          have hhead : ((entryOf m).1 != keyOf m) = false := by
            simp [entryOf]
          rw [cacheDelete, List.filter_cons, hhead]
          simp only [Bool.false_eq_true, if_false]
          rw [List.filter_eq_self]
          intro kv hkv
          rcases List.mem_map.mp hkv with ⟨m', hm', hkv'⟩
          rw [← hkv', entryOf]
          simp only [bne_iff_ne, ne_eq]
          intro hcon
          have hcon' : keyOf m' = keyOf m := hcon
          exact hnd.1 (by rw [← hcon']; exact List.mem_map_of_mem keyOf hm')
        rw [h1, h2]
      rw [drainCache_cons, if_neg hf, hdelkey, hdelE, ih extra htrR hnd.2 ?_]
      · simp [List.filter_cons, hf]
      · exact fun m' hm' kv hkv => hdis m' (List.mem_cons_of_mem m hm') kv hkv

/-! ## Queue end-to-end lemmas -/

theorem queue_shape (msgs : List OfflineMsg)
    (htr : ∀ m ∈ msgs, msgIdTruthy m.id = true)
    (hkeys : (msgs.map keyOf).Nodup) :
    cachesOpen (enqueueAll emptyStorage msgs) DYNAMIC_CACHE = msgs.map entryOf := by
  rw [cachesOpen_enqueueAll]
  have h0 : cachesOpen emptyStorage DYNAMIC_CACHE = [] := rfl
  rw [h0, enqueueCache_entries msgs [] htr hkeys
    (fun m _ kv hkv => absurd hkv (List.not_mem_nil kv))]
  simp

theorem drain_queue_filter (msgs : List OfflineMsg) (procFails : OfflineMsg → Bool)
    (htr : ∀ m ∈ msgs, msgIdTruthy m.id = true)
    (hnd : (msgs.map OfflineMsg.id).Nodup) :
    getOfflineActions (doBackgroundSync procFails (enqueueAll emptyStorage msgs)).1
      = msgs.filter procFails
    ∧ (doBackgroundSync procFails (enqueueAll emptyStorage msgs)).2 = msgs := by
  have hkeys := keyOf_nodup htr hnd
  have hshape := queue_shape msgs htr hkeys
  have hget : getOfflineActions (enqueueAll emptyStorage msgs) = msgs :=
    getOfflineActions_entries hshape hkeys
  constructor
  · rw [doBackgroundSync, hget]
    apply getOfflineActions_entries
    · rw [cachesOpen_drainLoop, hshape]
      have hd := drainCache_entries procFails msgs [] htr hkeys
        (fun m _ kv hkv => absurd hkv (List.not_mem_nil kv))
      simpa using hd
    · exact hkeys.sublist ((List.filter_sublist msgs).map keyOf)
  · rw [doBackgroundSync, hget, drainLoop_snd]

theorem filter_eq_singleton {msgs : List OfflineMsg} {procFails : OfflineMsg → Bool}
    {a : OfflineMsg} (hnd : msgs.Nodup) (ha : a ∈ msgs)
    (hf : ∀ m ∈ msgs, (procFails m = true ↔ m = a)) :
    msgs.filter procFails = [a] := by
  induction msgs with
  | nil => exact absurd ha (List.not_mem_nil a)
  | cons m rest ih =>
    simp only [List.nodup_cons] at hnd
    rcases List.mem_cons.mp ha with heq | hmem
    · subst heq
      have hfm : procFails a = true := (hf a (List.mem_cons_self a rest)).mpr rfl
      have hrest : rest.filter procFails = [] := by
        rw [List.filter_eq_nil_iff]
        intro x hx hfx
        have hxa := (hf x (List.mem_cons_of_mem a hx)).mp hfx
        exact hnd.1 (hxa ▸ hx)
      rw [List.filter_cons, if_pos hfm, hrest]
    · have hfm : procFails m = false := by
        cases hpm : procFails m with
        | false => rfl
        | true =>
          have := (hf m (List.mem_cons_self m rest)).mp hpm
          exact absurd (this ▸ hmem) hnd.1
      have hfm' : ¬ (procFails m = true) := by simp [hfm]
      rw [List.filter_cons, if_neg hfm']
      exact ih hnd.2 hmem (fun x hx => hf x (List.mem_cons_of_mem m hx))

/-! ## Claim theorems: Request Router -/

/-- C1: for every intercepted GET request routed to the API strategy, the
router is network-first: when the fetch succeeds (resolves with an `ok`
response), that response is returned and a clone of it is stored in the
dynamic partition under the request key; when the network fetch fails and a
cached copy exists, the cached copy is returned; when no cached copy exists,
a synthesized 503 response with a structured JSON no-cached-data body is
returned. -/
theorem api_network_first :
    ∀ (cs : CacheStorage) (req : Request),
      routeRequest req = RouteDecision.api →
      (∀ r : Response, r.okFlag = true →
        handleFetchEvent cs req (some r)
            = (some r, storagePut cs DYNAMIC_CACHE req.path r)
        ∧ cacheLookup (cachesOpen (storagePut cs DYNAMIC_CACHE req.path r) DYNAMIC_CACHE)
            req.path = some r)
      ∧ (∀ c : Response, cachesMatch cs req.path = some c →
          handleFetchEvent cs req none = (some c, cs))
      ∧ (cachesMatch cs req.path = none →
          handleFetchEvent cs req none = (some offline503Response, cs)
          ∧ offline503Response.status = 503
          ∧ offline503Response.contentType = "application/json"
          ∧ offline503Response.body = Body.errObj "Offline - No cached data available") := by
  intro cs req hroute
  refine ⟨?_, ?_, ?_⟩
  · intro r hok
    constructor
    · simp [handleFetchEvent, hroute, handleApiRequest, hok]
    · rw [storagePut, cachesOpen_update]
      exact cacheLookup_put_self _ _ _
  · intro c hc
    simp [handleFetchEvent, hroute, handleApiRequest, apiFallback, hc]
  · intro hc
    exact ⟨by simp [handleFetchEvent, hroute, handleApiRequest, apiFallback, hc], rfl, rfl, rfl⟩

theorem api_network_first_witness :
    routeRequest apiReq = RouteDecision.api
    ∧ handleFetchEvent emptyStorage apiReq (some sampleOkResp)
        = (some sampleOkResp, storagePut emptyStorage DYNAMIC_CACHE apiReq.path sampleOkResp)
    ∧ handleFetchEvent emptyStorage apiReq none = (some offline503Response, emptyStorage) := by
  have h := api_network_first emptyStorage apiReq (by decide)
  exact ⟨by decide, (h.1 sampleOkResp (by decide)).1, (h.2.2 (by decide)).1⟩

/-- C2: for every intercepted GET request routed to the asset strategy, the
router is cache-first: a cached record is returned immediately with no
dependence on the network outcome; on a miss the network response is cloned
into the dynamic partition before being returned only when it is a basic
response with status 200, and all other response types are returned
uncached; on total network failure a document request receives the cached
offline fallback page `/404.html`, and a non-document request gets no
response at all. -/
theorem asset_cache_first :
    ∀ (cs : CacheStorage) (req : Request),
      routeRequest req = RouteDecision.asset →
      (∀ r : Response, cachesMatch cs req.path = some r →
        ∀ fetchResult : Option Response, handleFetchEvent cs req fetchResult = (some r, cs))
      ∧ (cachesMatch cs req.path = none →
          (∀ fr : Response, fr.status = 200 → fr.rtype = "basic" →
            handleFetchEvent cs req (some fr)
                = (some fr, storagePut cs DYNAMIC_CACHE req.path fr)
            ∧ cacheLookup
                (cachesOpen (storagePut cs DYNAMIC_CACHE req.path fr) DYNAMIC_CACHE)
                req.path = some fr)
          ∧ (∀ fr : Response, ¬(fr.status = 200 ∧ fr.rtype = "basic") →
              handleFetchEvent cs req (some fr) = (some fr, cs))
          ∧ (req.destination = "document" →
              ∀ fb : Response, cachesMatch cs "/404.html" = some fb →
                handleFetchEvent cs req none = (some fb, cs))
          ∧ (req.destination ≠ "document" →
              handleFetchEvent cs req none = (none, cs))) := by
  intro cs req hroute
  refine ⟨?_, fun hmiss => ⟨?_, ?_, ?_, ?_⟩⟩
  · intro r hr fetchResult
    simp [handleFetchEvent, hroute, handleFetch, hr]
  · intro fr h200 hbasic
    constructor
    · simp [handleFetchEvent, hroute, handleFetch, hmiss, h200, hbasic]
    · rw [storagePut, cachesOpen_update]
      exact cacheLookup_put_self _ _ _
  · intro fr hother
    have hcond : (fr.status != 200 || fr.rtype != "basic") = true := by
      rcases not_and_or.mp hother with h | h <;> simp [h]
    simp [handleFetchEvent, hroute, handleFetch, hmiss, hcond]
  · intro hdoc fb hfb
    simp [handleFetchEvent, hroute, handleFetch, hmiss, hdoc, hfb]
  · intro hdoc
    have hcond : (req.destination == "document") = false := by
      simp [hdoc]
    simp [handleFetchEvent, hroute, handleFetch, hmiss, hcond]

theorem asset_cache_first_witness :
    handleFetchEvent (storagePut emptyStorage DYNAMIC_CACHE "/styles.css" sampleCorsResp)
        assetReq none
      = (some sampleCorsResp, storagePut emptyStorage DYNAMIC_CACHE "/styles.css" sampleCorsResp)
    ∧ handleFetchEvent emptyStorage assetReq (some sampleOkResp)
        = (some sampleOkResp, storagePut emptyStorage DYNAMIC_CACHE assetReq.path sampleOkResp)
    ∧ handleFetchEvent emptyStorage assetReq (some sampleCorsResp)
        = (some sampleCorsResp, emptyStorage)
    ∧ handleFetchEvent (storagePut emptyStorage DYNAMIC_CACHE "/404.html" fallbackPage)
        docReq none
      = (some fallbackPage, storagePut emptyStorage DYNAMIC_CACHE "/404.html" fallbackPage)
    ∧ handleFetchEvent emptyStorage assetReq none = (none, emptyStorage) := by
  refine ⟨?_, ?_, ?_, ?_, ?_⟩
  · exact (asset_cache_first _ assetReq (by decide)).1 sampleCorsResp (by decide) none
  · exact (((asset_cache_first emptyStorage assetReq (by decide)).2 (by decide)).1
      sampleOkResp (by decide) (by decide)).1
  · exact ((asset_cache_first emptyStorage assetReq (by decide)).2 (by decide)).2.1
      sampleCorsResp (by decide)
  · exact (((asset_cache_first _ docReq (by decide)).2 (by decide)).2.2.1 (by decide))
      fallbackPage (by decide)
  · exact ((asset_cache_first emptyStorage assetReq (by decide)).2 (by decide)).2.2.2
      (by decide)

/-! ## Claim theorems: Offline Action Queue -/

/-- C4: `storeOfflineAction` rejects, as a no-op leaving the storage
unchanged, a missing message and a message whose `id` is falsy; a message
with a truthy `id` is serialized into the dynamic partition under the
reserved key derived from its id, and deserializes back to the same
message. -/
theorem enqueue_guard_and_store :
    (∀ cs : CacheStorage, storeOfflineAction cs none = cs)
    ∧ (∀ (cs : CacheStorage) (m : OfflineMsg), msgIdTruthy m.id = false →
        storeOfflineAction cs (some m) = cs)
    ∧ (∀ (cs : CacheStorage) (m : OfflineMsg) (i : String), m.id = some i → i ≠ "" →
        cacheLookup (cachesOpen (storeOfflineAction cs (some m)) DYNAMIC_CACHE) (offKey i)
            = some (jsonOf m)
        ∧ respJson (jsonOf m) = some m) := by
  refine ⟨fun cs => rfl, ?_, ?_⟩
  · intro cs m hid
    simp [storeOfflineAction, hid]
  · intro cs m i hid hne
    have htr : msgIdTruthy m.id = true := by simp [msgIdTruthy, hid, hne]
    have hkey : offKey (m.id.getD "") = offKey i := by simp [hid]
    constructor
    · rw [storeOfflineAction]
      simp only [htr]
      rw [if_neg (by simp [htr]), hkey, storagePut, cachesOpen_update]
      exact cacheLookup_put_self _ _ _
    · rfl

theorem enqueue_guard_and_store_witness :
    storeOfflineAction emptyStorage (some msgNoId) = emptyStorage
    ∧ cacheLookup (cachesOpen (storeOfflineAction emptyStorage (some msgA)) DYNAMIC_CACHE)
        (offKey "a1") = some (jsonOf msgA) := by
  exact ⟨enqueue_guard_and_store.2.1 emptyStorage msgNoId (by decide),
    (enqueue_guard_and_store.2.2 emptyStorage msgA "a1" rfl (by decide)).1⟩

/-! ## Claim theorems: Lifecycle / static cache population -/

theorem updateCache_cons (addFails : String → Bool) (net : String → Response)
    (c : Cache) (b : String) (rest : List String) :
    updateCache addFails net c (b :: rest)
      = updateCache addFails net (if addFails b then c else cachePut c b (net b)) rest := rfl

theorem updateCache_lookup_not_mem (addFails : String → Bool) (net : String → Response) :
    ∀ (assets : List String) (c : Cache) (a : String), a ∉ assets →
      cacheLookup (updateCache addFails net c assets) a = cacheLookup c a := by
  intro assets
  induction assets with
  | nil => intro c a _; rfl
  | cons b rest ih =>
    intro c a h
    have hab : a ≠ b := fun he => h (he ▸ List.mem_cons_self b rest)
    have hrest : a ∉ rest := fun hr => h (List.mem_cons_of_mem b hr)
    rw [updateCache_cons]
    by_cases hb : addFails b
    · rw [if_pos hb]
      exact ih c a hrest
    · rw [if_neg hb, ih (cachePut c b (net b)) a hrest]
      exact cacheLookup_put_ne c b a (net b) hab

/-- C7: populating the static cache tolerates individual failures: for every
asset list, every set of failing assets and every starting cache, each
non-failing asset ends up cached with its fetched response — a failing
`cache.add` is caught and does not abort the remaining assets. -/
theorem update_cache_partial_population :
    ∀ (addFails : String → Bool) (net : String → Response) (assets : List String)
      (c : Cache) (a : String), a ∈ assets → addFails a = false →
      cacheLookup (updateCache addFails net c assets) a = some (net a) := by
  intro addFails net assets
  induction assets with
  | nil => intro c a ha _; exact absurd ha (List.not_mem_nil a)
  | cons b rest ih =>
    intro c a ha hf
    by_cases hmem : a ∈ rest
    · rw [updateCache_cons]
      exact ih _ a hmem hf
    · have hab : a = b := by
        rcases List.mem_cons.mp ha with h | h
        · exact h
        · exact absurd h hmem
      subst hab
      rw [updateCache_cons, if_neg (by simp [hf]),
        updateCache_lookup_not_mem addFails net rest _ a hmem]
      exact cacheLookup_put_self _ _ _

theorem update_cache_partial_population_witness :
    cacheLookup
        (updateCache (fun s => s == "/styles.css") (fun _ => sampleOkResp) []
          ["/styles.css", "/index.html"])
        "/index.html" = some sampleOkResp := by
  exact update_cache_partial_population (fun s => s == "/styles.css") (fun _ => sampleOkResp)
    ["/styles.css", "/index.html"] [] "/index.html" (by decide) (by decide)

/-- C3: draining a queue of enqueued actions whose replay callback fails for
exactly the action at position k removes every other action from the queue
and leaves that action in the queue, while the callback is still invoked on
every enumerated action (a per-action failure does not abort the drain, and
an action is removed only after its callback succeeds). -/
theorem drain_partial_failure :
    ∀ (msgs : List OfflineMsg) (procFails : OfflineMsg → Bool) (k : Nat)
      (hk : k < msgs.length),
      (∀ m ∈ msgs, msgIdTruthy m.id = true) →
      (msgs.map OfflineMsg.id).Nodup →
      (∀ m ∈ msgs, (procFails m = true ↔ m = msgs.get ⟨k, hk⟩)) →
      getOfflineActions (doBackgroundSync procFails (enqueueAll emptyStorage msgs)).1
          = [msgs.get ⟨k, hk⟩]
      ∧ (doBackgroundSync procFails (enqueueAll emptyStorage msgs)).2 = msgs := by
  intro msgs procFails k hk htr hnd hf
  have hmain := drain_queue_filter msgs procFails htr hnd
  refine ⟨?_, hmain.2⟩
  rw [hmain.1]
  have hndmsgs : msgs.Nodup := (keyOf_nodup htr hnd).of_map
  exact filter_eq_singleton hndmsgs (msgs.get_mem k hk) hf

theorem drain_partial_failure_witness :
    getOfflineActions
        (doBackgroundSync (fun m => m == msgB) (enqueueAll emptyStorage [msgA, msgB])).1
      = [msgB]
    ∧ (doBackgroundSync (fun m => m == msgB) (enqueueAll emptyStorage [msgA, msgB])).2
      = [msgA, msgB] := by
  exact drain_partial_failure [msgA, msgB] (fun m => m == msgB) 1 (by decide)
    (by decide) (by decide) (by decide)

/-- C9: draining is idempotent: when every queued action replays
successfully, the queue is empty after the first `drain()`, and a second
`drain()` with no new enqueues invokes the callback on nothing and leaves
the storage untouched — zero duplicate side effects. -/
theorem drain_idempotent :
    ∀ (msgs : List OfflineMsg) (procFails : OfflineMsg → Bool),
      (∀ m ∈ msgs, msgIdTruthy m.id = true) →
      (msgs.map OfflineMsg.id).Nodup →
      (∀ m ∈ msgs, procFails m = false) →
      getOfflineActions (doBackgroundSync procFails (enqueueAll emptyStorage msgs)).1 = []
      ∧ (doBackgroundSync procFails
          (doBackgroundSync procFails (enqueueAll emptyStorage msgs)).1).2 = []
      ∧ (doBackgroundSync procFails
          (doBackgroundSync procFails (enqueueAll emptyStorage msgs)).1).1
        = (doBackgroundSync procFails (enqueueAll emptyStorage msgs)).1 := by
  intro msgs procFails htr hnd hok
  have hmain := drain_queue_filter msgs procFails htr hnd
  have hempty : getOfflineActions
      (doBackgroundSync procFails (enqueueAll emptyStorage msgs)).1 = [] := by
    rw [hmain.1, List.filter_eq_nil_iff]
    intro a ha
    simp [hok a ha]
  refine ⟨hempty, ?_, ?_⟩
  · rw [doBackgroundSync, hempty]
    rfl
  · rw [doBackgroundSync, hempty]
    rfl

theorem drain_idempotent_witness :
    getOfflineActions
        (doBackgroundSync (fun _ => false) (enqueueAll emptyStorage [msgA, msgB])).1 = []
    ∧ (doBackgroundSync (fun _ => false)
        (doBackgroundSync (fun _ => false) (enqueueAll emptyStorage [msgA, msgB])).1).2
      = [] := by
  have h := drain_idempotent [msgA, msgB] (fun _ => false) (by decide) (by decide)
    (fun m _ => rfl)
  exact ⟨h.1, h.2.1⟩

/-! ## Claim theorems: Lifecycle / activation cleanup -/

theorem applyDeleteOps_mem {cs : CacheStorage} {ops : List (Option String)} :
    ∀ nc ∈ applyDeleteOps cs ops, nc ∈ cs := by
  induction ops generalizing cs with
  | nil => intro nc h; exact h
  | cons op rest ih =>
    intro nc h
    cases op with
    | none => exact ih nc h
    | some name =>
      have hmem : nc ∈ storageDeleteCache cs name := ih nc h
      exact List.mem_of_mem_filter hmem

theorem applyDeleteOps_deletes {name : String} :
    ∀ (ops : List (Option String)) (cs : CacheStorage), some name ∈ ops →
      ∀ nc ∈ applyDeleteOps cs ops, nc.1 ≠ name := by
  intro ops
  induction ops with
  | nil => intro cs h; exact absurd h (List.not_mem_nil _)
  | cons op rest ih =>
    intro cs h nc hnc
    rcases List.mem_cons.mp h with heq | hmem
    · subst heq
      have hnc' : nc ∈ storageDeleteCache cs name := applyDeleteOps_mem nc hnc
      have := List.of_mem_filter hnc'
      simpa using this
    · cases op with
      | none => exact ih cs hmem nc hnc
      | some other => exact ih (storageDeleteCache cs other) hmem nc hnc

/-- activateServiceWorker_purges: the correct activation variant
(`application.js` lines 394-407, `cleanupCache` in `worker.js`) leaves only
the current static/dynamic partitions: every surviving cache is named by one
of them, and old-generation partitions are deleted, never merged. -/
theorem activateServiceWorker_purges (cs : CacheStorage) :
    ∀ nc ∈ activateServiceWorker cs, nc.1 = STATIC_CACHE ∨ nc.1 = DYNAMIC_CACHE := by
  intro nc hnc
  by_cases hs : nc.1 = STATIC_CACHE
  · exact Or.inl hs
  by_cases hd : nc.1 = DYNAMIC_CACHE
  · exact Or.inr hd
  exfalso
  have hmem : nc ∈ cs := applyDeleteOps_mem nc hnc
  have hop : some nc.1 ∈ (cs.map Prod.fst).map deleteOpFor := by
    have h1 : nc.1 ∈ cs.map Prod.fst := List.mem_map_of_mem Prod.fst hmem
    have h2 : deleteOpFor nc.1 = some nc.1 := by
      simp [deleteOpFor, hs, hd]
    exact h2 ▸ List.mem_map_of_mem deleteOpFor h1
  exact applyDeleteOps_deletes ((cs.map Prod.fst).map deleteOpFor) cs hop nc hnc rfl

/-- C6 (code bug): the `activate` listener of `sw.js` line 114 calls `.map`
directly on the promise returned by `caches.keys()` (the `await` applies only
to the result of that call), so activation throws a TypeError and deletes no
cache, for any set of existing partitions — here evaluated at a storage
holding one old-generation partition alongside the current ones. -/
theorem sw_activate_type_error :
    swActivateOps ["old-cache", "static-v1", "dynamic-v1"]
      = Except.error "TypeError: caches.keys(...).map is not a function" := rfl

/-! ## Claim theorems: Connection Manager -/

/-- C8: `connect()` is a no-op whenever a connection is open or an attempt
is in progress (no new socket is created and the state is unchanged), and in
every reachable worker state at most one live socket exists. -/
theorem connect_guard_single_socket :
    (∀ s : WState, (s.connected || s.connecting) = true → connectStep s = s)
    ∧ (∀ s : WState, ReachableW s → s.liveSockets ≤ 1) := by
  constructor
  · intro s h
    exact connectStep_of_guard h
  · intro s h
    have hinv := reachableW_inv h
    rw [hinv.liveCount]
    cases hws : s.websocket with
    | none => simp [socketLiveCount, hws]
    | some sk =>
      by_cases hp : sk.phase = SockPhase.closedS <;> simp [socketLiveCount, hws, hp]

theorem connect_guard_single_socket_witness :
    connectStep (openStep (connectStep initW)) = openStep (connectStep initW)
    ∧ (connectStep initW).liveSockets ≤ 1 := by
  have h1 : ReachableW (connectStep initW) :=
    ReachableW.step initW WEvent.evConnect ReachableW.init (by decide)
  exact ⟨connect_guard_single_socket.1 (openStep (connectStep initW)) (by decide),
    connect_guard_single_socket.2 (connectStep initW) h1⟩

/-- C5 counterexample: it is not the case that every close event on a
reachable worker state broadcasts the disconnected status envelope — after
`connect()` from the initial state (socket created, not yet open), the close
handler of `worker.js` runs with `connected` still false and broadcasts
nothing. -/
theorem onclose_always_broadcasts_refuted :
    ¬ (∀ s : WState, ReachableW s → enabledEv s WEvent.evClose = true →
        Packet.statusPkt false ∈ emittedBy s WEvent.evClose) := by
  intro hclaim
  have h1 : ReachableW (connectStep initW) :=
    ReachableW.step initW WEvent.evConnect ReachableW.init (by decide)
  have h2 := hclaim (connectStep initW) h1 (by decide)
  exact absurd h2 (by decide)

/-- C5 amended: in every reachable worker state at most one reconnect timer
is pending; and on every close event, when the state was connected the flag
is flipped and exactly the disconnected status envelope is broadcast (when
it was not connected, nothing is broadcast), the pending reconnect timer is
cancelled and replaced by exactly one freshly scheduled timer (the fixed
3000ms `setTimeout`), never stacked. -/
theorem onclose_broadcast_and_timer :
    (∀ s : WState, ReachableW s → s.pendingTimers.length ≤ 1)
    ∧ (∀ s : WState, ReachableW s → enabledEv s WEvent.evClose = true →
        (s.connected = true →
          (closeStep s).connected = false
          ∧ emittedBy s WEvent.evClose = [Packet.statusPkt false])
        ∧ (s.connected = false → emittedBy s WEvent.evClose = [])
        ∧ (closeStep s).pendingTimers = [s.timerCounter]
        ∧ (∀ t, s.reconnectTimer = some t → t ∉ (closeStep s).pendingTimers)
        ∧ (closeStep s).reconnectTimer = some s.timerCounter) := by
  constructor
  · intro s h
    exact (reachableW_inv h).timerLen
  · intro s h _
    have hinv := reachableW_inv h
    refine ⟨?_, ?_, closeStep_pendingTimers_inv hinv, ?_, closeStep_reconnectTimer s⟩
    · intro hc
      refine ⟨closeStep_connected s, ?_⟩
      rw [emittedBy]
      show (closeStep s).emitted.drop s.emitted.length = _
      rw [closeStep_emitted, hc, if_pos rfl]
      exact List.drop_left _ _
    · intro hc
      rw [emittedBy]
      show (closeStep s).emitted.drop s.emitted.length = _
      rw [closeStep_emitted, hc]
      simp
    · intro t ht
      rw [closeStep_pendingTimers_inv hinv]
      have := hinv.timerLt t ht
      simp only [List.mem_singleton]
      omega

theorem onclose_broadcast_and_timer_witness :
    initW.pendingTimers.length ≤ 1
    ∧ emittedBy (openStep (connectStep initW)) WEvent.evClose = [Packet.statusPkt false]
    ∧ (closeStep (openStep (connectStep initW))).pendingTimers
        = [(openStep (connectStep initW)).timerCounter] := by
  have h1 : ReachableW (connectStep initW) :=
    ReachableW.step initW WEvent.evConnect ReachableW.init (by decide)
  have h2 : ReachableW (openStep (connectStep initW)) :=
    ReachableW.step (connectStep initW) WEvent.evOpen h1 (by decide)
  have hmain := onclose_broadcast_and_timer.2 (openStep (connectStep initW)) h2 (by decide)
  exact ⟨onclose_broadcast_and_timer.1 initW ReachableW.init,
    (hmain.1 (by decide)).2, hmain.2.2.1⟩

/-- C10: in every reachable worker state, `connected` implies the
`websocket` variable holds the socket created by the most recent `connect()`
call, and `send` never dereferences a null socket: when not connected it
returns false before touching `websocket`, and when connected the socket is
present. -/
theorem send_never_null :
    ∀ (s : WState) (packet : Packet), ReachableW s →
      send s packet ≠ none
      ∧ (s.connected = false → send s packet = some false)
      ∧ (s.connected = true →
          ∃ sk, s.websocket = some sk ∧ sk.sid + 1 = s.nextSocketId) := by
  intro s packet h
  have hinv := reachableW_inv h
  refine ⟨?_, ?_, ?_⟩
  · cases hc : s.connected with
    | false => simp [send, hc]
    | true =>
      obtain ⟨sk, hsk⟩ := hinv.connectedSock hc
      simp [send, hc, hsk]
  · intro hc
    simp [send, hc]
  · intro hc
    obtain ⟨sk, hsk⟩ := hinv.connectedSock hc
    exact ⟨sk, hsk, hinv.sockId sk hsk⟩

theorem send_never_null_witness :
    send (openStep (connectStep initW)) (Packet.messagePkt "hello") ≠ none
    ∧ send initW (Packet.messagePkt "hello") = some false := by
  have h1 : ReachableW (connectStep initW) :=
    ReachableW.step initW WEvent.evConnect ReachableW.init (by decide)
  have h2 : ReachableW (openStep (connectStep initW)) :=
    ReachableW.step (connectStep initW) WEvent.evOpen h1 (by decide)
  exact ⟨(send_never_null (openStep (connectStep initW)) (Packet.messagePkt "hello") h2).1,
    (send_never_null initW (Packet.messagePkt "hello") ReachableW.init).2.1 rfl⟩

end PWA
